import Mathlib

/-!
# Static regex extractor for Go sources (`extract-regexps.go`)

A shallow embedding of the extractor: the syntax tree handed over by
`go/parser`, the traversal performed by `ast.Inspect`, the import guard
`FOUND_REGEXP_IMPORT`, the call-site classifier and the report built by `main`.

Conventions of the embedding

* A Go `string` is a sequence of bytes (`GoString`); `len` is the byte count and
  slicing is by byte offsets.
* The two package-level variables are threaded explicitly (`Globals`).
* A run-time panic (slice bounds out of range) is an `Except.error`.
* A Go slice that may be `nil` is an `Option (List _)`; `none` is the `nil`
  slice, which `encoding/json` renders as `null`, `some []` is the empty
  non-nil slice, rendered as `[]`.
* `go/parser` and the file system are not part of the program: the parser is a
  parameter `parseFile`, `none` standing for `err != nil`.
* Writes to standard error (`myLog`) are not modelled.
-/

namespace ExtractRegexps

/-! ## Data model -/

/-- A Go string: an immutable byte sequence. -/
abbrev GoString := List UInt8

/-- The bytes of a string constant written in the (UTF-8) Go source. -/
def golit (s : String) : GoString := s.toUTF8.data.toList

/-- The literal kinds `go/token` assigns to an `ast.BasicLit`. -/
inductive Token where
  | INT
  | FLOAT
  | IMAG
  | CHAR
  | STRING
  deriving DecidableEq, Repr

/-- The node `ast.BasicLit`: a kind tag and the raw source text. -/
structure BasicLit where
  Kind : Token
  Value : GoString
  deriving DecidableEq, Repr

/-- The node `ast.ImportSpec`: optional local name and the path literal. -/
structure ImportSpec where
  Name : Option GoString
  Path : BasicLit
  deriving DecidableEq, Repr

/-- Syntax tree nodes. The four expression kinds the extractor inspects and
the import spec are explicit; every other node kind of `go/ast` (files,
declarations, statements, the remaining expressions) is `Other`, carrying its
children in the order `ast.Walk` descends into them. -/
inductive Node where
  | Ident (Name : GoString)
  | BasicLit (lit : BasicLit)
  | SelectorExpr (X : Node) (Sel : GoString)
  | CallExpr (Fun : Node) (Args : List Node)
  | ImportSpec (spec : ImportSpec)
  | Other (children : List Node)

/-- The record type `RegexUsage`. -/
structure RegexUsage where
  Pattern : GoString
  Flags : GoString
  deriving DecidableEq, Repr

/-- The report type `AllRegexes`. -/
structure AllRegexes where
  Language : GoString
  Filename : GoString
  CouldParse : Bool
  Regexes : Option (List RegexUsage)
  deriving DecidableEq, Repr

/-- The package-level variables `FOUND_REGEXP_IMPORT` and `allRegexes`. -/
structure Globals where
  FOUND_REGEXP_IMPORT : Bool
  allRegexes : AllRegexes
  deriving DecidableEq, Repr

/-- The variables as the Go runtime initialises them at process start:
`FOUND_REGEXP_IMPORT = false` and the zero value of `AllRegexes`. -/
def Globals.initial : Globals :=
  { FOUND_REGEXP_IMPORT := false
    allRegexes := { Language := [], Filename := [], CouldParse := false, Regexes := none } }

/-- Run-time panics the extractor can raise. -/
inductive Panic where
  | sliceBoundsOutOfRange
  deriving DecidableEq, Repr

/-- How a run of `main` ends. -/
inductive Outcome where
  | exit (code : Nat)
  | panicked (p : Panic)
  | emitted (report : AllRegexes)
  deriving DecidableEq, Repr

/-! ## Go primitives -/

/-- The slice expression `s[lo:hi]` on a string, with Go's bounds check
`0 <= lo <= hi <= len(s)`. -/
def sliceString (s : GoString) (lo hi : Int) : Except Panic GoString :=
  if 0 ≤ lo ∧ lo ≤ hi ∧ hi ≤ (s.length : Int) then
    .ok ((s.drop lo.toNat).take (hi.toNat - lo.toNat))
  else
    .error .sliceBoundsOutOfRange

/-- The builtin `append(s, x)` for a slice that may be `nil`. -/
def goAppend {α : Type} : Option (List α) → α → Option (List α)
  | none, x => some [x]
  | some l, x => some (l ++ [x])

/-! ## The extractor's functions -/

/-- Source: `importsRegexp`. -/
def importsRegexp (node : ImportSpec) : Bool :=
  node.Path.Kind == Token.STRING && node.Path.Value == golit "\"regexp\""

/-- Source: `exprIsIdentNamedRegexp`. -/
def exprIsIdentNamedRegexp (expr : Node) : Bool :=
  match expr with
  | .Ident Name => Name == golit "regexp"
  | _ => false

/-- Source: `nameIndicatesRegex`. -/
def nameIndicatesRegex (name : GoString) : Bool :=
  name == golit "Match" ||
  name == golit "MatchReader" ||
  name == golit "MatchString" ||
  name == golit "Compile" ||
  name == golit "CompilePOSIX" ||
  name == golit "MustCompile" ||
  name == golit "MustCompilePOSIX"

/-- Source: `getFirstArgIfString`. Returns `(pattern, ok)`. -/
def getFirstArgIfString (args : List Node) : Except Panic (GoString × Bool) :=
  match args with
  | .BasicLit basicLit :: _ =>
    if basicLit.Kind == Token.STRING then
      match sliceString basicLit.Value 1 ((basicLit.Value.length : Int) - 1) with
      | .error p => .error p
      | .ok pattern => .ok (pattern, true)
    else
      .ok ([], false)
  | _ => .ok ([], false)

/-- Source: `tryToGetRegexUsageFromCallExpr`, applied to the fields `Fun` and
`Args` of the call; the global it reads is the first parameter. Returns
`(regexUsage, ok)`. -/
def tryToGetRegexUsageFromCallExpr (FOUND_REGEXP_IMPORT : Bool) (Fun : Node) (Args : List Node) :
    Except Panic (RegexUsage × Bool) :=
  if FOUND_REGEXP_IMPORT then
    match Fun with
    | .SelectorExpr X Sel =>
      if exprIsIdentNamedRegexp X && nameIndicatesRegex Sel then
        match getFirstArgIfString Args with
        | .error p => .error p
        | .ok (pattern, wasLiteralString) =>
          if wasLiteralString then
            .ok ({ Pattern := pattern, Flags := golit "UNKNOWN" }, true)
          else
            .ok ({ Pattern := golit "DYNAMIC", Flags := golit "UNKNOWN" }, true)
      else
        .ok ({ Pattern := [], Flags := [] }, false)
    | _ => .ok ({ Pattern := [], Flags := [] }, false)
  else
    .ok ({ Pattern := [], Flags := [] }, false)

/-- The function literal `main` passes to `ast.Inspect`; `none` is the `nil`
node. Returns the closure's result (always `true`) and the updated globals. -/
def visitor (n : Option Node) (g : Globals) : Except Panic (Bool × Globals) :=
  match n with
  | some (.ImportSpec x) =>
    if importsRegexp x then
      .ok (true, { g with FOUND_REGEXP_IMPORT := true })
    else
      .ok (true, g)
  | some (.CallExpr Fun Args) =>
    match tryToGetRegexUsageFromCallExpr g.FOUND_REGEXP_IMPORT Fun Args with
    | .error p => .error p
    | .ok (regexUsage, ok) =>
      if ok then
        .ok (true, { g with allRegexes :=
          { g.allRegexes with Regexes := goAppend g.allRegexes.Regexes regexUsage } })
      else
        .ok (true, g)
  | _ => .ok (true, g)

/-! ## `ast.Inspect` -/

/-- One node of the traversal: call `f` on the node; if it answers `true`,
run `descend` over the children and then call `f` on `nil`. -/
def inspectNode {σ ε : Type} (f : Option Node → σ → Except ε (Bool × σ)) (n : Node)
    (descend : σ → Except ε σ) (s : σ) : Except ε σ :=
  match f (some n) s with
  | .error e => .error e
  | .ok (false, s1) => .ok s1
  | .ok (true, s1) =>
    match descend s1 with
    | .error e => .error e
    | .ok s2 =>
      match f none s2 with
      | .error e => .error e
      | .ok (_, s3) => .ok s3

/-- Sequencing of two traversal steps. -/
def andThen {σ ε : Type} (a b : σ → Except ε σ) (s : σ) : Except ε σ :=
  match a s with
  | .error e => .error e
  | .ok s1 => b s1

mutual
/-- The library function `ast.Inspect(node, f)`: depth-first traversal, calling
`f` on each node before its children and on `nil` after them. -/
def Inspect {σ ε : Type} (f : Option Node → σ → Except ε (Bool × σ)) : Node → σ → Except ε σ
  | .Ident Name => inspectNode f (.Ident Name) .ok
  | .BasicLit lit => inspectNode f (.BasicLit lit) .ok
  | .SelectorExpr X Sel =>
    inspectNode f (.SelectorExpr X Sel)
      (andThen (Inspect f X) (inspectNode f (.Ident Sel) .ok))
  | .CallExpr Fun Args =>
    inspectNode f (.CallExpr Fun Args) (andThen (Inspect f Fun) (InspectList f Args))
  | .ImportSpec spec =>
    inspectNode f (.ImportSpec spec)
      (andThen
        (match spec.Name with
          | some Name => inspectNode f (.Ident Name) .ok
          | none => .ok)
        (inspectNode f (.BasicLit spec.Path) .ok))
  | .Other children => inspectNode f (.Other children) (InspectList f children)
/-- Traversal of a list of sibling nodes, left to right. -/
def InspectList {σ ε : Type} (f : Option Node → σ → Except ε (Bool × σ)) :
    List Node → σ → Except ε σ
  | [] => .ok
  | n :: ns => andThen (Inspect f n) (InspectList f ns)
end

/-! ## `main` -/

/-- Source: `main`. `osArgs` is `os.Args`, `g` the package-level variables at
entry. -/
def main (parseFile : GoString → Option Node) (osArgs : List GoString) (g : Globals) : Outcome :=
  match osArgs with
  | _ :: sourceFileToParse :: _ =>
    let g1 : Globals := { g with allRegexes :=
      { g.allRegexes with
        Language := golit "go", Filename := sourceFileToParse, Regexes := some [] } }
    match parseFile sourceFileToParse with
    | some f =>
      let g2 : Globals := { g1 with allRegexes := { g1.allRegexes with CouldParse := true } }
      match Inspect visitor f g2 with
      | .error p => .panicked p
      | .ok g3 => .emitted g3.allRegexes
    | none => .emitted { g1.allRegexes with CouldParse := false }
  | _ => .exit 1

/-! ## The traversal as a sequence of visits, and what it leaves in the globals -/

mutual

/-- The nodes of a tree in the order in which `Inspect` first calls its
function on them (depth first, a node before its children, siblings left to
right), for a function that always answers `true`. -/
def preorder : Node → List Node
  | .Ident Name => [.Ident Name]
  | .BasicLit lit => [.BasicLit lit]
  | .SelectorExpr X Sel => .SelectorExpr X Sel :: (preorder X ++ [.Ident Sel])
  | .CallExpr Fun Args => .CallExpr Fun Args :: (preorder Fun ++ preorderList Args)
  | .ImportSpec spec =>
    .ImportSpec spec ::
      ((match spec.Name with
        | some Name => [.Ident Name]
        | none => []) ++ [.BasicLit spec.Path])
  | .Other children => .Other children :: preorderList children

/-- The visiting order of a list of sibling subtrees. -/
def preorderList : List Node → List Node
  | [] => []
  | n :: ns => preorder n ++ preorderList ns
end

/-- The effect of the visitor on the globals at one node. -/
def visit (n : Node) (g : Globals) : Except Panic Globals :=
  match visitor (some n) g with
  | .error p => .error p
  | .ok (_, g1) => .ok g1

/-- The visitor applied to a sequence of nodes, in order. -/
def walk : List Node → Globals → Except Panic Globals
  | [] => .ok
  | n :: ns => andThen (visit n) (walk ns)

/-- The call's first argument, when it is a string literal, has the two bytes
the slice `str[1:len(str)-1]` needs. The Go scanner delivers every string
literal with its two quote characters, so parsed trees satisfy this at every
node. -/
def firstArgQuoted : Node → Bool
  | .CallExpr _ (.BasicLit lit :: _) => lit.Kind != Token.STRING || decide (2 ≤ lit.Value.length)
  | _ => true

/-- The guard after the visitor has handled node `n`. -/
def guardAfter (found : Bool) : Node → Bool
  | .ImportSpec spec => if importsRegexp spec then true else found
  | _ => found

/-- The guard after the visitor has handled the nodes `l` in order. -/
def guardOfWalk : Bool → List Node → Bool
  | found, [] => found
  | found, n :: ns => guardOfWalk (guardAfter found n) ns

/-- The record the classifier returns for node `n` under guard `found`: one
record when `n` is a call expression and the classifier answers `ok = true`,
none otherwise. -/
def recordOf (found : Bool) : Node → List RegexUsage
  | .CallExpr Fun Args =>
    match tryToGetRegexUsageFromCallExpr found Fun Args with
    | .ok (regexUsage, true) => [regexUsage]
    | _ => []
  | _ => []

/-- The classifier's records for the nodes `l`, in order, each call classified
under the guard as the nodes before it have left it. -/
def recordsOfWalk : Bool → List Node → List RegexUsage
  | _, [] => []
  | found, n :: ns => recordOf found n ++ recordsOfWalk (guardAfter found n) ns

/-! ## Sample trees -/

/-- The spec of the declaration `import "regexp"`. -/
def regexpImport : Node := .ImportSpec ⟨none, ⟨.STRING, golit "\"regexp\""⟩⟩

/-- The call `regexp.M(args...)`. -/
def regexpCall (M : String) (args : List Node) : Node :=
  .CallExpr (.SelectorExpr (.Ident (golit "regexp")) (golit M)) args

/-- A string literal node with raw text `raw`. -/
def stringLit (raw : String) : Node := .BasicLit ⟨.STRING, golit raw⟩

/-- A file: its import declaration followed by one function body. -/
def fileOf (imports body : List Node) : Node := .Other [.Other imports, .Other body]

/-- A file importing `regexp` whose body calls `regexp.Compile("abc")`. -/
def fileCompileAbc : Node := fileOf [regexpImport] [regexpCall "Compile" [stringLit "\"abc\""]]

/-- A file importing `regexp` whose body calls `regexp.MustCompilePOSIX(x)`. -/
def fileMustCompilePOSIXIdent : Node :=
  fileOf [regexpImport] [regexpCall "MustCompilePOSIX" [.Ident (golit "x")]]

/-- A file importing `regexp` whose body calls `regexp.Compile()`. -/
def fileCompileNoArgs : Node := fileOf [regexpImport] [regexpCall "Compile" []]

/-- A file importing only `fmt` whose body calls `regexp.Compile("a")` and
`regexp.MatchString(x, "s")`. -/
def fileNoRegexpImport : Node :=
  fileOf [.ImportSpec ⟨none, ⟨.STRING, golit "\"fmt\""⟩⟩]
    [regexpCall "Compile" [stringLit "\"a\""],
     regexpCall "MatchString" [.Ident (golit "x"), stringLit "\"s\""]]

/-- Scenario A: a file importing `regexp` whose body calls
`regexp.Compile("foo")` and then `regexp.MatchString("bar", "x")`. -/
def fileScenarioA : Node :=
  fileOf [regexpImport]
    [regexpCall "Compile" [stringLit "\"foo\""],
     regexpCall "MatchString" [stringLit "\"bar\"", stringLit "\"x\""]]

/-- A tree in which the call `regexp.Compile("a")` precedes the spec of
`import "regexp"`, which the call `regexp.Compile("b")` follows. -/
def treeCallBeforeImport : Node :=
  .Other [regexpCall "Compile" [stringLit "\"a\""], regexpImport,
    regexpCall "Compile" [stringLit "\"b\""]]

/-- Every record held in `regexes` has flags `"UNKNOWN"`. -/
def FlagsUnknown (g : Globals) : Prop :=
  ∀ rs, g.allRegexes.Regexes = some rs → ∀ u ∈ rs, u.Flags = golit "UNKNOWN"

/-- The call `regexp.MatchString("a", f(regexp.MustCompile("b")))`. -/
def callNestedInArgument : Node :=
  regexpCall "MatchString"
    [stringLit "\"a\"",
     .CallExpr (.Ident (golit "f")) [regexpCall "MustCompile" [stringLit "\"b\""]]]

/-- The call `regexp.MustCompile(regexp.QuoteMeta(s))`. -/
def callQuoteMetaArgument : Node :=
  regexpCall "MustCompile" [regexpCall "QuoteMeta" [.Ident (golit "s")]]

/-- The spec that binds the path `"regexp"` to the local name `name`, as in
`import re "regexp"`. -/
def regexpImportAs (name : String) : Node :=
  .ImportSpec ⟨some (golit name), ⟨.STRING, golit "\"regexp\""⟩⟩

/-- The call `re.Compile("a")`. -/
def aliasCall : Node :=
  .CallExpr (.SelectorExpr (.Ident (golit "re")) (golit "Compile")) [stringLit "\"a\""]

end ExtractRegexps

/-!
# Query tool (`query-go.go`)

The tool reads a query (a pattern and a list of inputs), compiles the pattern
and matches it against each input. Package `regexp` is a parameter (`Engine`);
opening, reading and decoding the query file is the parameter `readQuery`.
-/

namespace QueryGo

open ExtractRegexps (GoString golit goAppend)

/-- The type `Query`. -/
structure Query where
  Pattern : GoString
  Inputs : Option (List GoString)
  deriving DecidableEq, Repr

/-- The type `MatchContents`. -/
structure MatchContents where
  MatchedString : GoString
  CaptureGroups : Option (List GoString)
  deriving DecidableEq, Repr

/-- The type `MatchResult`. -/
structure MatchResult where
  Input : GoString
  Matched : Bool
  MC : MatchContents
  deriving DecidableEq, Repr

/-- The type `QueryResult`. -/
structure QueryResult where
  Pattern : GoString
  Inputs : Option (List GoString)
  ValidGoPattern : Bool
  MRs : Option (List MatchResult)
  deriving DecidableEq, Repr

/-- The two functions of package `regexp` the tool calls. `Compile` answers
`none` for `err != nil`. `FindSubmatch` answers `none` for the `nil` slice (no
match) and otherwise the slice of submatches, each already converted with
`string(...)`. -/
structure Engine (Regexp : Type) where
  Compile : GoString → Option Regexp
  FindSubmatch : Regexp → GoString → Option (List GoString)

/-- Run-time panics of the tool: `check(err)` after `os.Open`, and the index
expression `matches[0]` on an empty slice. -/
inductive Panic where
  | openFailed
  | indexOutOfRange
  deriving DecidableEq, Repr

/-- How a run of `main` ends. -/
inductive Outcome where
  | exit (code : Nat)
  | panicked (p : Panic)
  | emitted (queryResult : QueryResult)
  deriving DecidableEq, Repr

/-- The body of the loop over the inputs in `main`: the match result for one
input. -/
def matchInput {Regexp : Type} (E : Engine Regexp) (re : Regexp) (input : GoString) :
    Except Panic MatchResult :=
  match E.FindSubmatch re input with
  | some flatMatches =>
    match flatMatches with
    | [] => .error .indexOutOfRange
    | whole :: groups =>
      .ok { Input := input, Matched := true,
            MC := { MatchedString := whole, CaptureGroups := groups.foldl goAppend (some []) } }
  | none =>
    .ok { Input := input, Matched := false,
          MC := { MatchedString := [], CaptureGroups := some [] } }

/-- The loop `for _, input := range query.Inputs` of `main`, threading
`queryResult.MRs`. -/
def rangeInputs {Regexp : Type} (E : Engine Regexp) (re : Regexp) :
    List GoString → Option (List MatchResult) → Except Panic (Option (List MatchResult))
  | [], MRs => .ok MRs
  | input :: rest, MRs =>
    match matchInput E re input with
    | .error p => .error p
    | .ok matchResult => rangeInputs E re rest (goAppend MRs matchResult)

/-- Source: `main` of `query-go.go`. `readQuery` answers `none` when `os.Open`
fails and otherwise the `Query` that `json.Unmarshal` leaves behind. -/
def main {Regexp : Type} (E : Engine Regexp) (readQuery : GoString → Option Query)
    (osArgs : List GoString) : Outcome :=
  match osArgs with
  | _ :: queryFile :: _ =>
    match readQuery queryFile with
    | none => .panicked .openFailed
    | some query =>
      let queryResult : QueryResult :=
        { Pattern := query.Pattern, Inputs := query.Inputs, ValidGoPattern := false,
          MRs := some [] }
      match E.Compile query.Pattern with
      | some re =>
        match rangeInputs E re (query.Inputs.getD []) queryResult.MRs with
        | .error p => .panicked p
        | .ok MRs => .emitted { queryResult with ValidGoPattern := true, MRs := MRs }
      | none => .emitted { queryResult with ValidGoPattern := false }
  | _ => .exit 1

/-- A small engine: every pattern but `(` compiles, and a compiled pattern
matches exactly the inputs that start with the byte `a`, the whole match being
`a` and the one capture group empty. -/
def sampleEngine : Engine Unit where
  Compile := fun pattern => if pattern == golit "(" then none else some ()
  FindSubmatch := fun _ input =>
    match input with
    | 0x61 :: _ => some [golit "a", []]
    | _ => none

end QueryGo

namespace ExtractRegexps

/-! ## Lemmas -/

theorem visitor_none (g : Globals) : visitor none g = .ok (true, g) := rfl

theorem visitor_shape (n : Option Node) (g : Globals) :
    (∃ p, visitor n g = .error p) ∨ (∃ g1, visitor n g = .ok (true, g1)) := by
  unfold visitor
  split
  · split
    · exact Or.inr ⟨_, rfl⟩
    · exact Or.inr ⟨_, rfl⟩
  · split
    · exact Or.inl ⟨_, rfl⟩
    · split
      · exact Or.inr ⟨_, rfl⟩
      · exact Or.inr ⟨_, rfl⟩
  · exact Or.inr ⟨_, rfl⟩

theorem visitor_some (n : Node) (g : Globals) :
    visitor (some n) g =
      (match visit n g with
        | .error p => .error p
        | .ok g1 => .ok (true, g1)) := by
  unfold visit
  rcases visitor_shape (some n) g with ⟨p, h⟩ | ⟨g1, h⟩ <;> rw [h]

theorem andThen_ok_right {σ ε : Type} (a : σ → Except ε σ) : andThen a Except.ok = a := by
  funext s
  unfold andThen
  cases a s <;> rfl

theorem andThen_ok_left {σ ε : Type} (a : σ → Except ε σ) : andThen Except.ok a = a := by
  funext s
  rfl

theorem andThen_assoc {σ ε : Type} (a b c : σ → Except ε σ) :
    andThen (andThen a b) c = andThen a (andThen b c) := by
  funext s
  unfold andThen
  cases a s <;> rfl

theorem inspectNode_visitor (n : Node) (descend : Globals → Except Panic Globals) :
    inspectNode visitor n descend = andThen (visit n) descend := by
  funext g
  unfold inspectNode andThen
  rw [visitor_some]
  cases h : visit n g with
  | error p => rfl
  | ok g1 =>
    simp only
    cases hd : descend g1 with
    | error p => rfl
    | ok g2 => simp [visitor_none]

theorem walk_nil : walk [] = Except.ok := rfl

theorem walk_cons (n : Node) (l : List Node) : walk (n :: l) = andThen (visit n) (walk l) := rfl

theorem walk_append (l1 l2 : List Node) : walk (l1 ++ l2) = andThen (walk l1) (walk l2) := by
  induction l1 with
  | nil => rfl
  | cons n ns ih => rw [List.cons_append, walk_cons, walk_cons, ih, andThen_assoc]

theorem visit_ident (Name : GoString) : visit (.Ident Name) = Except.ok := rfl

theorem visit_basicLit (lit : BasicLit) : visit (.BasicLit lit) = Except.ok := rfl

mutual
theorem Inspect_visitor : ∀ (n : Node), Inspect visitor n = walk (preorder n)
  | .Ident Name => by
    simp only [Inspect, preorder, inspectNode_visitor, walk_cons, walk_nil]
  | .BasicLit lit => by
    simp only [Inspect, preorder, inspectNode_visitor, walk_cons, walk_nil]
  | .SelectorExpr X Sel => by
    simp only [Inspect, preorder, inspectNode_visitor, walk_cons, walk_nil, walk_append,
      Inspect_visitor X]
  | .CallExpr Fun Args => by
    simp only [Inspect, preorder, inspectNode_visitor, walk_cons, walk_append,
      Inspect_visitor Fun, InspectList_visitor Args]
  | .ImportSpec spec => by
    cases h : spec.Name <;>
      simp only [Inspect, preorder, inspectNode_visitor, walk_cons, walk_nil, walk_append, h,
        visit_ident, visit_basicLit, andThen_ok_left, andThen_ok_right, List.nil_append,
        List.singleton_append]
  | .Other children => by
    simp only [Inspect, preorder, inspectNode_visitor, walk_cons, InspectList_visitor children]

theorem InspectList_visitor : ∀ (l : List Node), InspectList visitor l = walk (preorderList l)
  | [] => rfl
  | n :: ns => by
    simp only [InspectList, preorderList, walk_append, Inspect_visitor n, InspectList_visitor ns]
end

theorem sliceString_strip (v : GoString) (h : 2 ≤ v.length) :
    sliceString v 1 ((v.length : Int) - 1) = .ok ((v.drop 1).take (v.length - 2)) := by
  unfold sliceString
  have h1 : (0 : Int) ≤ 1 ∧ (1 : Int) ≤ (v.length : Int) - 1 ∧
      (v.length : Int) - 1 ≤ (v.length : Int) := by omega
  rw [if_pos h1]
  have h2 : ((v.length : Int) - 1).toNat - (1 : Int).toNat = v.length - 2 := by
    have : ((v.length : Int) - 1).toNat = v.length - 1 := by omega
    rw [this]
    simp
    omega
  rw [h2]
  rfl

theorem sliceString_quoted (q1 q2 : UInt8) (s : GoString) :
    sliceString (q1 :: (s ++ [q2])) 1 (((q1 :: (s ++ [q2])).length : Int) - 1) = .ok s := by
  rw [sliceString_strip _ (by simp)]
  simp

theorem getFirstArgIfString_total (Args : List Node) (Fun : Node)
    (h : firstArgQuoted (.CallExpr Fun Args) = true) :
    ∃ out, getFirstArgIfString Args = .ok out := by
  unfold getFirstArgIfString
  split
  · rename_i lit rest
    by_cases hk : lit.Kind = Token.STRING
    · have hl : 2 ≤ lit.Value.length := by
        simpa [firstArgQuoted, hk] using h
      simp [hk, sliceString_strip _ hl]
    · simp [hk]
  · exact ⟨_, rfl⟩

theorem tryToGetRegexUsageFromCallExpr_total (found : Bool) (Fun : Node) (Args : List Node)
    (h : firstArgQuoted (.CallExpr Fun Args) = true) :
    ∃ out, tryToGetRegexUsageFromCallExpr found Fun Args = .ok out := by
  obtain ⟨⟨pattern, wasLit⟩, hg⟩ := getFirstArgIfString_total Args Fun h
  unfold tryToGetRegexUsageFromCallExpr
  rw [hg]
  cases found
  · exact ⟨_, rfl⟩
  · cases Fun with
    | SelectorExpr X Sel =>
      cases hc : (exprIsIdentNamedRegexp X && nameIndicatesRegex Sel) <;>
        cases wasLit <;> simp [hc]
    | _ => exact ⟨_, rfl⟩

theorem visit_ok (n : Node) (found : Bool) (lang file : GoString) (cp : Bool)
    (rs : List RegexUsage) (h : firstArgQuoted n = true) :
    visit n ⟨found, ⟨lang, file, cp, some rs⟩⟩ =
      .ok ⟨guardAfter found n, ⟨lang, file, cp, some (rs ++ recordOf found n)⟩⟩ := by
  cases n with
  | Ident Name => simp [visit, visitor, guardAfter, recordOf]
  | BasicLit lit => simp [visit, visitor, guardAfter, recordOf]
  | SelectorExpr X Sel => simp [visit, visitor, guardAfter, recordOf]
  | Other children => simp [visit, visitor, guardAfter, recordOf]
  | ImportSpec spec =>
    by_cases hi : importsRegexp spec = true <;> simp [visit, visitor, guardAfter, recordOf, hi]
  | CallExpr Fun Args =>
    obtain ⟨⟨r, ok⟩, ht⟩ := tryToGetRegexUsageFromCallExpr_total found Fun Args h
    cases ok <;> simp [visit, visitor, guardAfter, recordOf, ht, goAppend]

theorem walk_ok (l : List Node) (found : Bool) (lang file : GoString) (cp : Bool)
    (rs : List RegexUsage) (h : ∀ n ∈ l, firstArgQuoted n = true) :
    walk l ⟨found, ⟨lang, file, cp, some rs⟩⟩ =
      .ok ⟨guardOfWalk found l, ⟨lang, file, cp, some (rs ++ recordsOfWalk found l)⟩⟩ := by
  induction l generalizing found rs with
  | nil => simp [walk, guardOfWalk, recordsOfWalk]
  | cons n ns ih =>
    have hn : firstArgQuoted n = true := h n (List.mem_cons_self _ _)
    have hns : ∀ m ∈ ns, firstArgQuoted m = true := fun m hm => h m (List.mem_cons_of_mem _ hm)
    rw [walk_cons]
    unfold andThen
    rw [visit_ok n found lang file cp rs hn]
    simp only
    rw [ih _ _ hns]
    simp [guardOfWalk, recordsOfWalk, List.append_assoc]

theorem guardOfWalk_true (l : List Node) : guardOfWalk true l = true := by
  induction l with
  | nil => rfl
  | cons n ns ih =>
    have : guardAfter true n = true := by
      cases n <;> simp [guardAfter]
    simp [guardOfWalk, this, ih]

theorem guardOfWalk_append (found : Bool) (l1 l2 : List Node) :
    guardOfWalk found (l1 ++ l2) = guardOfWalk (guardOfWalk found l1) l2 := by
  induction l1 generalizing found with
  | nil => rfl
  | cons n ns ih => simp [guardOfWalk, ih]

theorem recordsOfWalk_append (found : Bool) (l1 l2 : List Node) :
    recordsOfWalk found (l1 ++ l2) =
      recordsOfWalk found l1 ++ recordsOfWalk (guardOfWalk found l1) l2 := by
  induction l1 generalizing found with
  | nil => rfl
  | cons n ns ih => simp [recordsOfWalk, guardOfWalk, ih, List.append_assoc]

theorem guardOfWalk_import (found : Bool) (pre mid : List Node) (imp : ImportSpec)
    (h : importsRegexp imp = true) :
    guardOfWalk found (pre ++ Node.ImportSpec imp :: mid) = true := by
  rw [guardOfWalk_append]
  simp [guardOfWalk, guardAfter, h, guardOfWalk_true]

theorem main_ok (parseFile : GoString → Option Node) (prog file : GoString)
    (rest : List GoString) (g : Globals) (root : Node)
    (hp : parseFile file = some root) (hq : ∀ n ∈ preorder root, firstArgQuoted n = true) :
    main parseFile (prog :: file :: rest) g =
      .emitted ⟨golit "go", file, true,
        some (recordsOfWalk g.FOUND_REGEXP_IMPORT (preorder root))⟩ := by
  simp only [main, hp, Inspect_visitor]
  rw [walk_ok _ _ _ _ _ _ hq]
  simp

theorem getFirstArgIfString_string (v : GoString) (more : List Node) (h : 2 ≤ v.length) :
    getFirstArgIfString (.BasicLit ⟨.STRING, v⟩ :: more) =
      .ok ((v.drop 1).take (v.length - 2), true) := by
  simp [getFirstArgIfString, sliceString_strip v h]

theorem getFirstArgIfString_quoted (q1 q2 : UInt8) (s : GoString) (more : List Node) :
    getFirstArgIfString (.BasicLit ⟨.STRING, q1 :: (s ++ [q2])⟩ :: more) = .ok (s, true) := by
  rw [getFirstArgIfString_string _ _ (by simp)]
  simp

theorem recordOf_literal (M : GoString) (q1 q2 : UInt8) (s : GoString) (more : List Node)
    (hM : nameIndicatesRegex M = true) :
    recordOf true (.CallExpr (.SelectorExpr (.Ident (golit "regexp")) M)
      (.BasicLit ⟨.STRING, q1 :: (s ++ [q2])⟩ :: more)) = [⟨s, golit "UNKNOWN"⟩] := by
  simp only [recordOf, tryToGetRegexUsageFromCallExpr, getFirstArgIfString_quoted]
  simp [exprIsIdentNamedRegexp, hM]

theorem recordsOfWalk_split (found : Bool) (pre post : List Node) (n : Node) :
    recordsOfWalk found (pre ++ n :: post) =
      recordsOfWalk found pre ++ (recordOf (guardOfWalk found pre) n ++
        recordsOfWalk (guardAfter (guardOfWalk found pre) n) post) := by
  rw [recordsOfWalk_append]
  rfl

theorem getFirstArgIfString_not_string (a : Node) (more : List Node)
    (h : ∀ v, a ≠ Node.BasicLit ⟨Token.STRING, v⟩) :
    getFirstArgIfString (a :: more) = .ok ([], false) := by
  cases a with
  | BasicLit lit =>
    have hk : lit.Kind ≠ Token.STRING := by
      intro hk
      apply h lit.Value
      cases lit
      simp_all
    simp [getFirstArgIfString, hk]
  | _ => rfl

theorem recordOf_dynamic (M : GoString) (a : Node) (more : List Node)
    (hM : nameIndicatesRegex M = true) (h : ∀ v, a ≠ Node.BasicLit ⟨Token.STRING, v⟩) :
    recordOf true (.CallExpr (.SelectorExpr (.Ident (golit "regexp")) M) (a :: more)) =
      [⟨golit "DYNAMIC", golit "UNKNOWN"⟩] := by
  simp only [recordOf, tryToGetRegexUsageFromCallExpr, getFirstArgIfString_not_string a more h]
  simp [exprIsIdentNamedRegexp, hM]

theorem tryToGet_no_args (M : GoString) (hM : nameIndicatesRegex M = true) :
    tryToGetRegexUsageFromCallExpr true (.SelectorExpr (.Ident (golit "regexp")) M) [] =
      .ok (⟨golit "DYNAMIC", golit "UNKNOWN"⟩, true) := by
  simp [tryToGetRegexUsageFromCallExpr, exprIsIdentNamedRegexp, hM, getFirstArgIfString]

theorem walk_guard_unset (l : List Node) (g : Globals) (hg : g.FOUND_REGEXP_IMPORT = false)
    (h : ∀ imp, Node.ImportSpec imp ∈ l → importsRegexp imp = false) :
    walk l g = .ok g := by
  induction l with
  | nil => rfl
  | cons n ns ih =>
    have hns : ∀ imp, Node.ImportSpec imp ∈ ns → importsRegexp imp = false :=
      fun imp hm => h imp (List.mem_cons_of_mem _ hm)
    have hv : visit n g = .ok g := by
      cases n with
      | ImportSpec spec =>
        have := h spec (List.mem_cons_self _ _)
        simp [visit, visitor, this]
      | CallExpr Fun Args => simp [visit, visitor, hg, tryToGetRegexUsageFromCallExpr]
      | _ => rfl
    rw [walk_cons]
    unfold andThen
    rw [hv]
    exact ih hns

theorem tryToGet_flags (found : Bool) (Fun : Node) (Args : List Node) (r : RegexUsage)
    (h : tryToGetRegexUsageFromCallExpr found Fun Args = .ok (r, true)) :
    r.Flags = golit "UNKNOWN" := by
  unfold tryToGetRegexUsageFromCallExpr at h
  cases found with
  | false => simp at h
  | true =>
    cases Fun with
    | SelectorExpr X Sel =>
      cases hc : (exprIsIdentNamedRegexp X && nameIndicatesRegex Sel) with
      | false => simp [hc] at h
      | true =>
        cases hg : getFirstArgIfString Args with
        | error p => simp [hc, hg] at h
        | ok out =>
          obtain ⟨pattern, wasLit⟩ := out
          cases wasLit <;> simp [hc, hg] at h <;> rw [← h]
    | _ => simp at h

theorem visit_flags (n : Node) (g g1 : Globals) (h : visit n g = .ok g1)
    (hinv : FlagsUnknown g) : FlagsUnknown g1 := by
  cases n with
  | CallExpr Fun Args =>
    unfold visit visitor at h
    cases ht : tryToGetRegexUsageFromCallExpr g.FOUND_REGEXP_IMPORT Fun Args with
    | error p => simp [ht] at h
    | ok out =>
      obtain ⟨r, ok⟩ := out
      cases ok with
      | false =>
        simp [ht] at h
        rw [← h]; exact hinv
      | true =>
        simp [ht] at h
        have hr := tryToGet_flags _ _ _ _ ht
        rw [← h]
        intro rs hrs u hu
        simp only at hrs
        cases hreg : g.allRegexes.Regexes with
        | none =>
          rw [hreg] at hrs
          simp [goAppend] at hrs
          subst hrs
          simp at hu
          rw [hu]; exact hr
        | some l =>
          rw [hreg] at hrs
          simp [goAppend] at hrs
          subst hrs
          rcases List.mem_append.mp hu with hu | hu
          · exact hinv l hreg u hu
          · simp at hu
            rw [hu]; exact hr
  | ImportSpec spec =>
    unfold visit visitor at h
    by_cases hi : importsRegexp spec = true
    · simp [hi] at h
      rw [← h]; exact hinv
    · simp [hi] at h
      rw [← h]; exact hinv
  | Ident Name => simp [visit, visitor] at h; rw [← h]; exact hinv
  | BasicLit lit => simp [visit, visitor] at h; rw [← h]; exact hinv
  | SelectorExpr X Sel => simp [visit, visitor] at h; rw [← h]; exact hinv
  | Other children => simp [visit, visitor] at h; rw [← h]; exact hinv

theorem walk_flags (l : List Node) (g g1 : Globals) (h : walk l g = .ok g1)
    (hinv : FlagsUnknown g) : FlagsUnknown g1 := by
  induction l generalizing g with
  | nil =>
    simp [walk] at h
    rw [← h]; exact hinv
  | cons n ns ih =>
    rw [walk_cons] at h
    unfold andThen at h
    cases hv : visit n g with
    | error p => simp [hv] at h
    | ok g2 =>
      simp [hv] at h
      exact ih g2 h (visit_flags n g g2 hv hinv)

theorem recordOf_guard_unset (n : Node) : recordOf false n = [] := by
  cases n <;> simp [recordOf, tryToGetRegexUsageFromCallExpr]

theorem walk_lists_guard_unset (l : List Node)
    (h : ∀ imp, Node.ImportSpec imp ∈ l → importsRegexp imp = false) :
    guardOfWalk false l = false ∧ recordsOfWalk false l = [] := by
  induction l with
  | nil => exact ⟨rfl, rfl⟩
  | cons n ns ih =>
    have hns := ih (fun imp hm => h imp (List.mem_cons_of_mem _ hm))
    have hg : guardAfter false n = false := by
      cases n with
      | ImportSpec spec => simp [guardAfter, h spec (List.mem_cons_self _ _)]
      | _ => rfl
    simp [guardOfWalk, recordsOfWalk, hg, hns, recordOf_guard_unset]

theorem guardOfWalk_of_mem (found : Bool) (l : List Node) (imp : ImportSpec)
    (hm : Node.ImportSpec imp ∈ l) (hi : importsRegexp imp = true) :
    guardOfWalk found l = true := by
  obtain ⟨a, b, hab⟩ := List.append_of_mem hm
  rw [hab]
  exact guardOfWalk_import found a b imp hi

theorem tryToGet_recognised (M : GoString) (Args : List Node)
    (hM : nameIndicatesRegex M = true)
    (hq : firstArgQuoted (.CallExpr (.SelectorExpr (.Ident (golit "regexp")) M) Args) = true) :
    ∃ r, tryToGetRegexUsageFromCallExpr true (.SelectorExpr (.Ident (golit "regexp")) M) Args =
      .ok (r, true) := by
  obtain ⟨⟨pattern, wasLit⟩, hg⟩ := getFirstArgIfString_total Args _ hq
  cases wasLit <;>
    simp [tryToGetRegexUsageFromCallExpr, exprIsIdentNamedRegexp, hM, hg]

theorem recordsOfWalk_selector (M : GoString) (rest : List Node) :
    recordsOfWalk true (preorder (.SelectorExpr (.Ident (golit "regexp")) M) ++ rest) =
      recordsOfWalk true rest := by
  simp [preorder, recordsOfWalk, recordOf, guardAfter]

theorem visitor_guard (n : Option Node) (g g1 : Globals) (b : Bool)
    (h : visitor n g = .ok (b, g1)) :
    (g.FOUND_REGEXP_IMPORT = true → g1.FOUND_REGEXP_IMPORT = true) ∧
    (g.FOUND_REGEXP_IMPORT = false → g1.FOUND_REGEXP_IMPORT = true →
      ∃ spec, n = some (.ImportSpec spec) ∧ importsRegexp spec = true) ∧
    (∀ Fun Args, n = some (.CallExpr Fun Args) →
      g1.FOUND_REGEXP_IMPORT = g.FOUND_REGEXP_IMPORT) := by
  unfold visitor at h
  split at h
  · rename_i x
    by_cases hi : importsRegexp x = true
    · simp [hi] at h
      obtain ⟨-, h⟩ := h
      subst h
      exact ⟨fun _ => rfl, fun _ _ => ⟨x, rfl, hi⟩, fun _ _ hn => by simp at hn⟩
    · simp [hi] at h
      obtain ⟨-, h⟩ := h
      subst h
      exact ⟨id, fun h0 h1 => by simp [h0] at h1, fun _ _ _ => rfl⟩
  · rename_i Fun Args
    cases ht : tryToGetRegexUsageFromCallExpr g.FOUND_REGEXP_IMPORT Fun Args with
    | error p => simp [ht] at h
    | ok out =>
      obtain ⟨r, ok⟩ := out
      cases ok <;> simp [ht] at h <;> obtain ⟨-, h⟩ := h <;> subst h <;>
        exact ⟨id, fun h0 h1 => by simp [h0] at h1, fun _ _ _ => rfl⟩
  · simp at h
    obtain ⟨-, h⟩ := h
    subst h
    refine ⟨id, fun h0 h1 => by simp [h0] at h1, fun _ _ _ => rfl⟩

theorem visit_guard_true (n : Node) (g g1 : Globals) (h : visit n g = .ok g1)
    (hg : g.FOUND_REGEXP_IMPORT = true) : g1.FOUND_REGEXP_IMPORT = true := by
  unfold visit at h
  cases hv : visitor (some n) g with
  | error p => simp [hv] at h
  | ok out =>
    obtain ⟨b, g2⟩ := out
    simp [hv] at h
    subst h
    exact (visitor_guard _ _ _ _ hv).1 hg

theorem tryToGet_unrecognised (found : Bool) (Fun : Node) (Args : List Node)
    (h : (∀ X Sel, Fun ≠ .SelectorExpr X Sel) ∨
      (∃ X Sel, Fun = .SelectorExpr X Sel ∧
        (X ≠ .Ident (golit "regexp") ∨ nameIndicatesRegex Sel = false))) :
    tryToGetRegexUsageFromCallExpr found Fun Args = .ok (⟨[], []⟩, false) := by
  cases found with
  | false => rfl
  | true =>
    rcases h with h | ⟨X, Sel, hF, h⟩
    · cases Fun with
      | SelectorExpr X Sel => exact absurd rfl (h X Sel)
      | _ => rfl
    · subst hF
      have hc : (exprIsIdentNamedRegexp X && nameIndicatesRegex Sel) = false := by
        rcases h with h | h
        · have : exprIsIdentNamedRegexp X = false := by
            cases X with
            | Ident Name =>
              simp only [exprIsIdentNamedRegexp, beq_eq_false_iff_ne]
              intro hn
              exact h (by rw [hn])
            | _ => rfl
          simp [this]
        · simp [h]
      simp [tryToGetRegexUsageFromCallExpr, hc]

theorem sliceString_short (v : GoString) (h : v.length < 2) :
    sliceString v 1 ((v.length : Int) - 1) = .error Panic.sliceBoundsOutOfRange := by
  unfold sliceString
  have hb : ¬ ((0 : Int) ≤ 1 ∧ (1 : Int) ≤ (v.length : Int) - 1 ∧
      (v.length : Int) - 1 ≤ (v.length : Int)) := by omega
  rw [if_neg hb]

/-! ## The claims -/

/-- C1: when the file parses (its string literals carrying their quotes, as the
scanner delivers them) and the walk visits an import spec whose path is the
string literal `"regexp"` before a call `regexp.M(lit, ...)` with `M` a
recognised name and `lit` a string literal whose raw text is one byte `q1`, the
bytes `s`, one byte `q2`, the run emits a report with `couldParse = true` whose
`regexes` contains `{pattern: s, flags: "UNKNOWN"}`; `s` is taken over
byte for byte, whatever it contains. -/
theorem C1_literal_first_argument_is_reported
    (parseFile : GoString → Option Node) (prog file : GoString) (rest : List GoString)
    (root : Node) (pre mid post : List Node) (imp : ImportSpec) (M : GoString)
    (q1 q2 : UInt8) (s : GoString) (more : List Node)
    (hparse : parseFile file = some root)
    (hquoted : ∀ n ∈ preorder root, firstArgQuoted n = true)
    (himp : imp.Path = ⟨Token.STRING, golit "\"regexp\""⟩)
    (hM : nameIndicatesRegex M = true)
    (hwalk : preorder root = pre ++ Node.ImportSpec imp :: (mid ++
      Node.CallExpr (.SelectorExpr (.Ident (golit "regexp")) M)
        (.BasicLit ⟨.STRING, q1 :: (s ++ [q2])⟩ :: more) :: post)) :
    ∃ regexes, main parseFile (prog :: file :: rest) Globals.initial =
        .emitted ⟨golit "go", file, true, some regexes⟩ ∧
      ⟨s, golit "UNKNOWN"⟩ ∈ regexes := by
  refine ⟨_, main_ok parseFile prog file rest Globals.initial root hparse hquoted, ?_⟩
  have hi : importsRegexp imp = true := by simp [importsRegexp, himp]
  have hw : preorder root = (pre ++ Node.ImportSpec imp :: mid) ++
      Node.CallExpr (.SelectorExpr (.Ident (golit "regexp")) M)
        (.BasicLit ⟨.STRING, q1 :: (s ++ [q2])⟩ :: more) :: post := by
    rw [hwalk]; simp
  rw [hw, recordsOfWalk_split, guardOfWalk_import _ _ _ _ hi, recordOf_literal _ _ _ _ _ hM]
  simp

/-- C1 at the file that imports `regexp` and calls `regexp.Compile("abc")`: the report contains `{abc, UNKNOWN}`. -/
theorem C1_witness :
    ∃ regexes, main (fun _ => some fileCompileAbc) [golit "extract-regexps", golit "a.go"]
        Globals.initial = .emitted ⟨golit "go", golit "a.go", true, some regexes⟩ ∧
      ⟨golit "abc", golit "UNKNOWN"⟩ ∈ regexes :=
  C1_literal_first_argument_is_reported (fun _ => some fileCompileAbc) (golit "extract-regexps")
    (golit "a.go") [] fileCompileAbc
    [fileCompileAbc, .Other [regexpImport]]
    [.BasicLit ⟨.STRING, golit "\"regexp\""⟩, .Other [regexpCall "Compile" [stringLit "\"abc\""]]]
    [.SelectorExpr (.Ident (golit "regexp")) (golit "Compile"), .Ident (golit "regexp"),
      .Ident (golit "Compile"), stringLit "\"abc\""]
    ⟨none, ⟨.STRING, golit "\"regexp\""⟩⟩ (golit "Compile") 0x22 0x22 (golit "abc") []
    rfl (by decide) rfl (by decide) (by rfl)

/-- C2: when the file parses (its string literals carrying their quotes) and
the walk visits an import spec whose path is the string literal `"regexp"`
before a call `regexp.M(a, ...)` with `M` a recognised name and `a` any node
other than a string literal, the run emits a report with `couldParse = true`
whose `regexes` contains `{pattern: "DYNAMIC", flags: "UNKNOWN"}`. -/
theorem C2_non_literal_first_argument_is_dynamic
    (parseFile : GoString → Option Node) (prog file : GoString) (rest : List GoString)
    (root : Node) (pre mid post : List Node) (imp : ImportSpec) (M : GoString)
    (a : Node) (more : List Node)
    (hparse : parseFile file = some root)
    (hquoted : ∀ n ∈ preorder root, firstArgQuoted n = true)
    (himp : imp.Path = ⟨Token.STRING, golit "\"regexp\""⟩)
    (hM : nameIndicatesRegex M = true)
    (hdyn : ∀ v, a ≠ Node.BasicLit ⟨Token.STRING, v⟩)
    (hwalk : preorder root = pre ++ Node.ImportSpec imp :: (mid ++
      Node.CallExpr (.SelectorExpr (.Ident (golit "regexp")) M) (a :: more) :: post)) :
    ∃ regexes, main parseFile (prog :: file :: rest) Globals.initial =
        .emitted ⟨golit "go", file, true, some regexes⟩ ∧
      ⟨golit "DYNAMIC", golit "UNKNOWN"⟩ ∈ regexes := by
  refine ⟨_, main_ok parseFile prog file rest Globals.initial root hparse hquoted, ?_⟩
  have hi : importsRegexp imp = true := by simp [importsRegexp, himp]
  have hw : preorder root = (pre ++ Node.ImportSpec imp :: mid) ++
      Node.CallExpr (.SelectorExpr (.Ident (golit "regexp")) M) (a :: more) :: post := by
    rw [hwalk]; simp
  rw [hw, recordsOfWalk_split, guardOfWalk_import _ _ _ _ hi, recordOf_dynamic _ _ _ hM hdyn]
  simp

/-- C2 at the file that imports `regexp` and calls `regexp.MustCompilePOSIX(x)`: the report contains `{DYNAMIC, UNKNOWN}`. -/
theorem C2_witness :
    ∃ regexes, main (fun _ => some fileMustCompilePOSIXIdent)
        [golit "extract-regexps", golit "a.go"] Globals.initial =
        .emitted ⟨golit "go", golit "a.go", true, some regexes⟩ ∧
      ⟨golit "DYNAMIC", golit "UNKNOWN"⟩ ∈ regexes :=
  C2_non_literal_first_argument_is_dynamic (fun _ => some fileMustCompilePOSIXIdent)
    (golit "extract-regexps") (golit "a.go") [] fileMustCompilePOSIXIdent
    [fileMustCompilePOSIXIdent, .Other [regexpImport]]
    [.BasicLit ⟨.STRING, golit "\"regexp\""⟩,
      .Other [regexpCall "MustCompilePOSIX" [.Ident (golit "x")]]]
    [.SelectorExpr (.Ident (golit "regexp")) (golit "MustCompilePOSIX"),
      .Ident (golit "regexp"), .Ident (golit "MustCompilePOSIX"), .Ident (golit "x")]
    ⟨none, ⟨.STRING, golit "\"regexp\""⟩⟩ (golit "MustCompilePOSIX") (.Ident (golit "x")) []
    rfl (by decide) rfl (by decide) (fun _ h => Node.noConfusion h) (by rfl)

/-- C3, as the code refutes it: with the guard set, the classifier answers
`ok = true` with the record `{DYNAMIC, UNKNOWN}` for the call
`regexp.Compile()`, and a run over a file that imports `regexp` and calls
`regexp.Compile()` reports that record. -/
theorem C3_counterexample :
    tryToGetRegexUsageFromCallExpr true
        (.SelectorExpr (.Ident (golit "regexp")) (golit "Compile")) [] =
      .ok (⟨golit "DYNAMIC", golit "UNKNOWN"⟩, true) ∧
    main (fun _ => some fileCompileNoArgs) [golit "extract-regexps", golit "a.go"]
        Globals.initial =
      .emitted ⟨golit "go", golit "a.go", true,
        some [⟨golit "DYNAMIC", golit "UNKNOWN"⟩]⟩ :=
  ⟨rfl, rfl⟩

/-- C3, amended: for a call `regexp.M()` with `M` a recognised name and no
arguments, while the import guard is false the classifier answers `ok = false`
and the visitor leaves the globals as they are; while the guard is true the
classifier answers `ok = true` with the record `{DYNAMIC, UNKNOWN}` and the
visitor appends that record to `regexes`. -/
theorem C3_zero_argument_call (M : GoString) (hM : nameIndicatesRegex M = true) :
    (∃ r, tryToGetRegexUsageFromCallExpr false
        (.SelectorExpr (.Ident (golit "regexp")) M) [] = .ok (r, false)) ∧
    (∀ g : Globals, g.FOUND_REGEXP_IMPORT = false →
      visitor (some (.CallExpr (.SelectorExpr (.Ident (golit "regexp")) M) [])) g =
        .ok (true, g)) ∧
    tryToGetRegexUsageFromCallExpr true (.SelectorExpr (.Ident (golit "regexp")) M) [] =
      .ok (⟨golit "DYNAMIC", golit "UNKNOWN"⟩, true) ∧
    (∀ g : Globals, g.FOUND_REGEXP_IMPORT = true →
      visitor (some (.CallExpr (.SelectorExpr (.Ident (golit "regexp")) M) [])) g =
        .ok (true, { g with allRegexes := { g.allRegexes with
          Regexes := goAppend g.allRegexes.Regexes ⟨golit "DYNAMIC", golit "UNKNOWN"⟩ } })) := by
  refine ⟨⟨_, rfl⟩, ?_, tryToGet_no_args M hM, ?_⟩
  · intro g hg
    simp [visitor, hg, tryToGetRegexUsageFromCallExpr]
  · intro g hg
    simp [visitor, hg, tryToGet_no_args M hM]

/-- C3 (amended) at the name `MatchReader`: with the guard set the argumentless call is classified as `{DYNAMIC, UNKNOWN}`. -/
theorem C3_witness :
    tryToGetRegexUsageFromCallExpr true
        (.SelectorExpr (.Ident (golit "regexp")) (golit "MatchReader")) [] =
      .ok (⟨golit "DYNAMIC", golit "UNKNOWN"⟩, true) :=
  (C3_zero_argument_call (golit "MatchReader") (by decide)).2.2.1

/-- C4: when the file parses and its tree holds no import spec whose path text
is `"regexp"`, the run emits the report with `couldParse = true` and `regexes`
the empty sequence, whatever call expressions the tree contains. -/
theorem C4_no_regexp_import_no_records
    (parseFile : GoString → Option Node) (prog file : GoString) (rest : List GoString)
    (root : Node)
    (hparse : parseFile file = some root)
    (hnone : ∀ imp, Node.ImportSpec imp ∈ preorder root →
      imp.Path.Value ≠ golit "\"regexp\"") :
    main parseFile (prog :: file :: rest) Globals.initial =
      .emitted ⟨golit "go", file, true, some []⟩ := by
  have h : ∀ imp, Node.ImportSpec imp ∈ preorder root → importsRegexp imp = false := by
    intro imp hm
    simp [importsRegexp, hnone imp hm]
  simp only [main, hparse, Inspect_visitor]
  rw [walk_guard_unset _ _ rfl h]

/-- C4 at a file that imports only `fmt` and calls `regexp.Compile("a")` and `regexp.MatchString(x, "s")`: no record. -/
theorem C4_witness :
    main (fun _ => some fileNoRegexpImport) [golit "extract-regexps", golit "a.go"]
        Globals.initial =
      .emitted ⟨golit "go", golit "a.go", true, some []⟩ :=
  C4_no_regexp_import_no_records (fun _ => some fileNoRegexpImport) (golit "extract-regexps")
    (golit "a.go") [] fileNoRegexpImport rfl (by
      intro imp hm
      simp [fileNoRegexpImport, fileOf, regexpCall, stringLit, preorder, preorderList] at hm
      subst hm
      decide)

/-- C5: when the file parses (its string literals carrying their quotes), the
run emits the report with `couldParse = true` whose `regexes` is exactly
`recordsOfWalk false (preorder root)`: the records the classifier returns for
the nodes of the tree, taken in walk order, each call classified under the
guard as the nodes before it left it. In particular a file that imports
`regexp` and calls `regexp.Compile("foo")` and then
`regexp.MatchString("bar", "x")` yields `[{foo, UNKNOWN}, {bar, UNKNOWN}]`. -/
theorem C5_regexes_are_the_classifier_records_in_walk_order
    (parseFile : GoString → Option Node) (prog file : GoString) (rest : List GoString)
    (root : Node)
    (hparse : parseFile file = some root)
    (hquoted : ∀ n ∈ preorder root, firstArgQuoted n = true) :
    main parseFile (prog :: file :: rest) Globals.initial =
      .emitted ⟨golit "go", file, true, some (recordsOfWalk false (preorder root))⟩ ∧
    main (fun _ => some fileScenarioA) [golit "extract-regexps", golit "a.go"]
        Globals.initial =
      .emitted ⟨golit "go", golit "a.go", true,
        some [⟨golit "foo", golit "UNKNOWN"⟩, ⟨golit "bar", golit "UNKNOWN"⟩]⟩ :=
  ⟨main_ok parseFile prog file rest Globals.initial root hparse hquoted, by decide⟩

/-- C5 at the file of scenario A. -/
theorem C5_witness :
    main (fun _ => some fileScenarioA) [golit "extract-regexps", golit "a.go"]
        Globals.initial =
      .emitted ⟨golit "go", golit "a.go", true,
        some (recordsOfWalk false (preorder fileScenarioA))⟩ :=
  (C5_regexes_are_the_classifier_records_in_walk_order (fun _ => some fileScenarioA)
    (golit "extract-regexps") (golit "a.go") [] fileScenarioA rfl (by decide)).1

/-- C6: when the parser reports failure, the run emits the report with
`language = "go"`, `fileName` the path given on the command line,
`couldParse = false` and `regexes` the empty non-nil sequence. -/
theorem C6_parse_failure_report
    (parseFile : GoString → Option Node) (prog file : GoString) (rest : List GoString)
    (hfail : parseFile file = none) :
    main parseFile (prog :: file :: rest) Globals.initial =
      .emitted ⟨golit "go", file, false, some []⟩ := by
  simp [main, hfail, Globals.initial]

/-- C6 at a parser that fails on every file. -/
theorem C6_witness :
    main (fun _ => none) [golit "extract-regexps", golit "broken.go"] Globals.initial =
      .emitted ⟨golit "go", golit "broken.go", false, some []⟩ :=
  C6_parse_failure_report (fun _ => none) (golit "extract-regexps") (golit "broken.go") [] rfl

/-- C7: `nameIndicatesRegex name` holds exactly when `name` is one of
`Compile`, `CompilePOSIX`, `MustCompile`, `MustCompilePOSIX`, `Match`,
`MatchReader`, `MatchString`; it fails on `QuoteMeta`, `compile`,
`MatchStrings` and the empty name. -/
theorem C7_recognised_names_closed_set :
    (∀ name : GoString, nameIndicatesRegex name = true ↔
      name ∈ [golit "Compile", golit "CompilePOSIX", golit "MustCompile",
        golit "MustCompilePOSIX", golit "Match", golit "MatchReader", golit "MatchString"]) ∧
    nameIndicatesRegex (golit "QuoteMeta") = false ∧
    nameIndicatesRegex (golit "compile") = false ∧
    nameIndicatesRegex (golit "MatchStrings") = false ∧
    nameIndicatesRegex [] = false := by
  refine ⟨?_, by decide, by decide, by decide, by decide⟩
  intro name
  simp only [nameIndicatesRegex, Bool.or_eq_true, beq_iff_eq, List.mem_cons, List.mem_singleton,
    List.mem_nil_iff, or_false]
  tauto

/-- C8: every record in the `regexes` of an emitted report has flags
`"UNKNOWN"`, for every parser, command line and tree. -/
theorem C8_flags_always_unknown
    (parseFile : GoString → Option Node) (osArgs : List GoString) (report : AllRegexes)
    (regexes : List RegexUsage) (u : RegexUsage)
    (hrun : main parseFile osArgs Globals.initial = .emitted report)
    (hreg : report.Regexes = some regexes) (hu : u ∈ regexes) :
    u.Flags = golit "UNKNOWN" := by
  unfold main at hrun
  split at hrun
  · rename_i file rest
    simp only at hrun
    split at hrun
    · rename_i root hparse
      rw [Inspect_visitor] at hrun
      split at hrun
      · simp at hrun
      · rename_i g3 hw
        have hinv := walk_flags _ _ _ hw (by
          intro rs hrs u hu
          simp at hrs
          subst hrs
          simp at hu)
        simp at hrun
        rw [← hrun] at hreg
        exact hinv regexes hreg u hu
    · simp at hrun
      rw [← hrun] at hreg
      simp at hreg
      subst hreg
      simp at hu
  · simp at hrun

/-- C8 at the second record of the report of scenario A. -/
theorem C8_witness :
    (⟨golit "bar", golit "UNKNOWN"⟩ : RegexUsage).Flags = golit "UNKNOWN" :=
  C8_flags_always_unknown (fun _ => some fileScenarioA) [golit "extract-regexps", golit "a.go"]
    ⟨golit "go", golit "a.go", true,
      some [⟨golit "foo", golit "UNKNOWN"⟩, ⟨golit "bar", golit "UNKNOWN"⟩]⟩
    [⟨golit "foo", golit "UNKNOWN"⟩, ⟨golit "bar", golit "UNKNOWN"⟩]
    ⟨golit "bar", golit "UNKNOWN"⟩ rfl rfl (by decide)

/-- C10: let the file parse (its string literals carrying their quotes) and let
the walk reach a recognised call `regexp.M(...)` after the nodes `pre` and
before the nodes `post`; the globals when the walk starts are
`{false, {go, file, true, []}}`.
(a) If no import spec among `pre` has path text `"regexp"`, the walk reaches
the call with the guard false, the visitor leaves the globals unchanged at the
call, and the report's `regexes` holds only the records of `post`, whatever
`post` contains, import specs included.
(b) If an import spec among `pre` has the string literal `"regexp"` as path,
the walk reaches the call with the guard true, the classifier returns a record
`r` with `ok = true`, the visitor appends `r`, and the report's `regexes` is the
records of `pre`, then `r`, then the records of `post`. -/
theorem C10_record_appended_only_while_guard_set
    (parseFile : GoString → Option Node) (prog file : GoString) (rest : List GoString)
    (root : Node) (pre post : List Node) (M : GoString) (Args : List Node)
    (hparse : parseFile file = some root)
    (hquoted : ∀ n ∈ preorder root, firstArgQuoted n = true)
    (hM : nameIndicatesRegex M = true)
    (hwalk : preorder root =
      pre ++ Node.CallExpr (.SelectorExpr (.Ident (golit "regexp")) M) Args :: post) :
    ((∀ imp, Node.ImportSpec imp ∈ pre → imp.Path.Value ≠ golit "\"regexp\"") →
      ∃ g : Globals,
        walk pre ⟨false, ⟨golit "go", file, true, some []⟩⟩ = .ok g ∧
        g.FOUND_REGEXP_IMPORT = false ∧
        visitor (some (.CallExpr (.SelectorExpr (.Ident (golit "regexp")) M) Args)) g =
          .ok (true, g) ∧
        main parseFile (prog :: file :: rest) Globals.initial =
          .emitted ⟨golit "go", file, true, some (recordsOfWalk false post)⟩) ∧
    ((∃ imp, Node.ImportSpec imp ∈ pre ∧ imp.Path = ⟨Token.STRING, golit "\"regexp\""⟩) →
      ∃ (g : Globals) (r : RegexUsage),
        walk pre ⟨false, ⟨golit "go", file, true, some []⟩⟩ = .ok g ∧
        g.FOUND_REGEXP_IMPORT = true ∧
        tryToGetRegexUsageFromCallExpr true (.SelectorExpr (.Ident (golit "regexp")) M) Args =
          .ok (r, true) ∧
        visitor (some (.CallExpr (.SelectorExpr (.Ident (golit "regexp")) M) Args)) g =
          .ok (true, { g with allRegexes :=
            { g.allRegexes with Regexes := goAppend g.allRegexes.Regexes r } }) ∧
        main parseFile (prog :: file :: rest) Globals.initial =
          .emitted ⟨golit "go", file, true,
            some (recordsOfWalk false pre ++ r :: recordsOfWalk true post)⟩) := by
  have hmain := main_ok parseFile prog file rest Globals.initial root hparse hquoted
  have hqpre : ∀ n ∈ pre, firstArgQuoted n = true := by
    intro n hn
    apply hquoted
    rw [hwalk]
    exact List.mem_append_left _ hn
  have hqcall : firstArgQuoted
      (.CallExpr (.SelectorExpr (.Ident (golit "regexp")) M) Args) = true := by
    apply hquoted
    rw [hwalk]
    exact List.mem_append_right _ (List.mem_cons_self _ _)
  rw [hwalk, recordsOfWalk_split] at hmain
  constructor
  · intro hnone
    have h : ∀ imp, Node.ImportSpec imp ∈ pre → importsRegexp imp = false := by
      intro imp hm
      simp [importsRegexp, hnone imp hm]
    obtain ⟨hg, hr⟩ := walk_lists_guard_unset pre h
    refine ⟨_, walk_guard_unset pre _ rfl h, rfl, ?_, ?_⟩
    · simp [visitor, tryToGetRegexUsageFromCallExpr]
    · rw [hmain]
      simp [Globals.initial, hg, hr, recordOf_guard_unset, guardAfter]
  · rintro ⟨imp, hm, hp⟩
    have hi : importsRegexp imp = true := by simp [importsRegexp, hp]
    have hg : guardOfWalk false pre = true := guardOfWalk_of_mem false pre imp hm hi
    obtain ⟨r, hr⟩ := tryToGet_recognised M Args hM hqcall
    refine ⟨_, r, walk_ok pre false _ _ _ _ hqpre, hg, hr, ?_, ?_⟩
    · simp [visitor, hg, hr]
    · rw [hmain]
      simp [Globals.initial, hg, recordOf, hr, guardAfter]

/-- C10 (a) at a tree whose first call precedes the spec of `import "regexp"`: only the call after the import is reported. -/
theorem C10_witness :
    ∃ g : Globals,
      walk [treeCallBeforeImport] ⟨false, ⟨golit "go", golit "a.go", true, some []⟩⟩ = .ok g ∧
      g.FOUND_REGEXP_IMPORT = false ∧
      visitor (some (.CallExpr (.SelectorExpr (.Ident (golit "regexp")) (golit "Compile"))
        [stringLit "\"a\""])) g = .ok (true, g) ∧
      main (fun _ => some treeCallBeforeImport) [golit "extract-regexps", golit "a.go"]
          Globals.initial =
        .emitted ⟨golit "go", golit "a.go", true, some [⟨golit "b", golit "UNKNOWN"⟩]⟩ :=
  (C10_record_appended_only_while_guard_set (fun _ => some treeCallBeforeImport)
    (golit "extract-regexps") (golit "a.go") [] treeCallBeforeImport
    [treeCallBeforeImport]
    [.SelectorExpr (.Ident (golit "regexp")) (golit "Compile"), .Ident (golit "regexp"),
      .Ident (golit "Compile"), stringLit "\"a\"", regexpImport,
      .BasicLit ⟨.STRING, golit "\"regexp\""⟩, regexpCall "Compile" [stringLit "\"b\""],
      .SelectorExpr (.Ident (golit "regexp")) (golit "Compile"), .Ident (golit "regexp"),
      .Ident (golit "Compile"), stringLit "\"b\""]
    (golit "Compile") [stringLit "\"a\""] rfl (by decide) (by decide) (by rfl)).1
    (fun imp hm => by
      simp [treeCallBeforeImport] at hm)

/-- C11: let the guard be set and let `regexp.M(Args...)` be a recognised call
whose subtree has its string literals quoted. The classifier returns a record
`r` for the call, and `Inspect` over the call's subtree appends to `regexes`
first `r` and then the records of the nodes below the arguments, in walk order.
Every recognised call `regexp.M'(Args'...)` anywhere below the arguments
contributes its own record `r'` there, at its place in the walk, hence after
`r`. So `regexp.MatchString("a", f(regexp.MustCompile("b")))` gives
`[{a, UNKNOWN}, {b, UNKNOWN}]`, and `regexp.MustCompile(regexp.QuoteMeta(s))`,
whose inner call is not a recognised one, gives `[{DYNAMIC, UNKNOWN}]`. -/
theorem C11_nested_calls_classified_independently
    (M : GoString) (Args : List Node) (lang file : GoString) (cp : Bool)
    (rs : List RegexUsage)
    (hM : nameIndicatesRegex M = true)
    (hquoted : ∀ n ∈ preorder (.CallExpr (.SelectorExpr (.Ident (golit "regexp")) M) Args),
      firstArgQuoted n = true) :
    (∃ r, tryToGetRegexUsageFromCallExpr true (.SelectorExpr (.Ident (golit "regexp")) M) Args =
        .ok (r, true) ∧
      Inspect visitor (.CallExpr (.SelectorExpr (.Ident (golit "regexp")) M) Args)
          ⟨true, ⟨lang, file, cp, some rs⟩⟩ =
        .ok ⟨true, ⟨lang, file, cp,
          some (rs ++ r :: recordsOfWalk true (preorderList Args))⟩⟩) ∧
    (∀ (a b : List Node) (M' : GoString) (Args' : List Node),
      nameIndicatesRegex M' = true →
      preorderList Args =
        a ++ Node.CallExpr (.SelectorExpr (.Ident (golit "regexp")) M') Args' :: b →
      ∃ r', tryToGetRegexUsageFromCallExpr true
          (.SelectorExpr (.Ident (golit "regexp")) M') Args' = .ok (r', true) ∧
        recordsOfWalk true (preorderList Args) =
          recordsOfWalk true a ++ r' :: recordsOfWalk true b) ∧
    Inspect visitor callNestedInArgument ⟨true, ⟨lang, file, cp, some []⟩⟩ =
      .ok ⟨true, ⟨lang, file, cp,
        some [⟨golit "a", golit "UNKNOWN"⟩, ⟨golit "b", golit "UNKNOWN"⟩]⟩⟩ ∧
    Inspect visitor callQuoteMetaArgument ⟨true, ⟨lang, file, cp, some []⟩⟩ =
      .ok ⟨true, ⟨lang, file, cp, some [⟨golit "DYNAMIC", golit "UNKNOWN"⟩]⟩⟩ := by
  refine ⟨?_, ?_, rfl, rfl⟩
  · have hqc : firstArgQuoted
        (.CallExpr (.SelectorExpr (.Ident (golit "regexp")) M) Args) = true := by
      apply hquoted
      rw [preorder]
      exact List.mem_cons_self _ _
    obtain ⟨r, hr⟩ := tryToGet_recognised M Args hM hqc
    refine ⟨r, hr, ?_⟩
    rw [Inspect_visitor, walk_ok _ _ _ _ _ _ hquoted, guardOfWalk_true]
    have : recordsOfWalk true
        (preorder (.CallExpr (.SelectorExpr (.Ident (golit "regexp")) M) Args)) =
        r :: recordsOfWalk true (preorderList Args) := by
      rw [preorder, recordsOfWalk]
      have hga : guardAfter true
          (.CallExpr (.SelectorExpr (.Ident (golit "regexp")) M) Args) = true := rfl
      rw [hga, recordsOfWalk_selector]
      simp [recordOf, hr]
    rw [this]
  · intro a b M' Args' hM' hsplit
    have hqi : firstArgQuoted
        (.CallExpr (.SelectorExpr (.Ident (golit "regexp")) M') Args') = true := by
      apply hquoted
      rw [preorder, hsplit]
      simp
    obtain ⟨r', hr'⟩ := tryToGet_recognised M' Args' hM' hqi
    refine ⟨r', hr', ?_⟩
    rw [hsplit, recordsOfWalk_split, guardOfWalk_true]
    simp [recordOf, hr', guardAfter]

/-- C11 at `regexp.MatchString("a", f(regexp.MustCompile("b")))`: the inner
call `regexp.MustCompile("b")` has its record after the outer one. -/
theorem C11_witness :
    ∃ r', tryToGetRegexUsageFromCallExpr true
        (.SelectorExpr (.Ident (golit "regexp")) (golit "MustCompile")) [stringLit "\"b\""] =
          .ok (r', true) ∧
      recordsOfWalk true (preorderList
          [stringLit "\"a\"",
            .CallExpr (.Ident (golit "f")) [regexpCall "MustCompile" [stringLit "\"b\""]]]) =
        recordsOfWalk true
            [stringLit "\"a\"",
              .CallExpr (.Ident (golit "f")) [regexpCall "MustCompile" [stringLit "\"b\""]],
              .Ident (golit "f")] ++
          r' :: recordsOfWalk true
            [.SelectorExpr (.Ident (golit "regexp")) (golit "MustCompile"),
              .Ident (golit "regexp"), .Ident (golit "MustCompile"), stringLit "\"b\""] :=
  (C11_nested_calls_classified_independently (golit "MatchString")
    [stringLit "\"a\"",
      .CallExpr (.Ident (golit "f")) [regexpCall "MustCompile" [stringLit "\"b\""]]]
    [] [] true [] (by decide) (by decide)).2.1 _ _ (golit "MustCompile") [stringLit "\"b\""]
    (by decide) (by rfl)

/-- C12: at a step of the walk, the visitor called on node `n` (or on `nil`)
with globals `g` and answering with globals `g1`: if the guard was true it is
true afterwards; if it went from false to true, `n` is an import spec for which
`importsRegexp` holds; if `n` is a call expression the guard is unchanged; and
`regexes` apart, no other global changes. Over a whole sequence of visits the
guard, once true, stays true. -/
theorem C12_guard_monotone_single_trigger
    (n : Option Node) (g g1 : Globals) (b : Bool)
    (hstep : visitor n g = .ok (b, g1)) :
    (g.FOUND_REGEXP_IMPORT = true → g1.FOUND_REGEXP_IMPORT = true) ∧
    (g.FOUND_REGEXP_IMPORT = false → g1.FOUND_REGEXP_IMPORT = true →
      ∃ spec, n = some (.ImportSpec spec) ∧ importsRegexp spec = true) ∧
    (∀ Fun Args, n = some (.CallExpr Fun Args) →
      g1.FOUND_REGEXP_IMPORT = g.FOUND_REGEXP_IMPORT) ∧
    (∀ (l : List Node) (g2 g3 : Globals), walk l g2 = .ok g3 →
      g2.FOUND_REGEXP_IMPORT = true → g3.FOUND_REGEXP_IMPORT = true) := by
  have hwalk : ∀ (l : List Node) (g2 g3 : Globals), walk l g2 = .ok g3 →
      g2.FOUND_REGEXP_IMPORT = true → g3.FOUND_REGEXP_IMPORT = true := by
    intro l
    induction l with
    | nil =>
      intro g2 g3 h hg
      simp [walk] at h
      rw [← h]; exact hg
    | cons m ms ih =>
      intro g2 g3 h hg
      rw [walk_cons] at h
      unfold andThen at h
      cases hv : visit m g2 with
      | error p => simp [hv] at h
      | ok g4 =>
        simp [hv] at h
        exact ih g4 g3 h (visit_guard_true m g2 g4 hv hg)
  obtain ⟨h1, h2, h3⟩ := visitor_guard n g g1 b hstep
  exact ⟨h1, h2, h3, hwalk⟩

/-- C12 at the spec of `import "regexp"` visited with the initial globals. -/
theorem C12_witness :
    ∃ spec, (some regexpImport : Option Node) = some (.ImportSpec spec) ∧
      importsRegexp spec = true :=
  (C12_guard_monotone_single_trigger (some regexpImport) Globals.initial
    { Globals.initial with FOUND_REGEXP_IMPORT := true } true rfl).2.1 rfl rfl

/-- C13: the classifier answers `ok = false`, with the zero record and without
panicking, whatever the guard and the arguments, when the callee is not a
selector expression, or is a selector expression whose receiver is not the
identifier `regexp`, or whose method name is not a recognised one; the visitor
then leaves the globals as they are. This covers `f(...)`, a call of a call, a
function literal, `re.Compile`, `pkg.regexp.Compile`, `Regexp.Compile` and
`regexp.QuoteMeta`. -/
theorem C13_unrecognised_shapes_yield_no_record :
    (∀ (found : Bool) (Fun : Node) (Args : List Node),
      ((∀ X Sel, Fun ≠ .SelectorExpr X Sel) ∨
        (∃ X Sel, Fun = .SelectorExpr X Sel ∧
          (X ≠ .Ident (golit "regexp") ∨ nameIndicatesRegex Sel = false))) →
      tryToGetRegexUsageFromCallExpr found Fun Args = .ok (⟨[], []⟩, false) ∧
      ∀ g : Globals, g.FOUND_REGEXP_IMPORT = found →
        visitor (some (.CallExpr Fun Args)) g = .ok (true, g)) ∧
    (∀ (found : Bool) (Args : List Node),
      tryToGetRegexUsageFromCallExpr found (.Ident (golit "f")) Args =
        .ok (⟨[], []⟩, false) ∧
      tryToGetRegexUsageFromCallExpr found (.CallExpr (.Ident (golit "f")) []) Args =
        .ok (⟨[], []⟩, false) ∧
      tryToGetRegexUsageFromCallExpr found (.Other []) Args = .ok (⟨[], []⟩, false) ∧
      tryToGetRegexUsageFromCallExpr found
        (.SelectorExpr (.Ident (golit "re")) (golit "Compile")) Args =
        .ok (⟨[], []⟩, false) ∧
      tryToGetRegexUsageFromCallExpr found
        (.SelectorExpr (.SelectorExpr (.Ident (golit "pkg")) (golit "regexp"))
          (golit "Compile")) Args = .ok (⟨[], []⟩, false) ∧
      tryToGetRegexUsageFromCallExpr found
        (.SelectorExpr (.Ident (golit "Regexp")) (golit "Compile")) Args =
        .ok (⟨[], []⟩, false) ∧
      tryToGetRegexUsageFromCallExpr found
        (.SelectorExpr (.Ident (golit "regexp")) (golit "QuoteMeta")) Args =
        .ok (⟨[], []⟩, false)) := by
  constructor
  · intro found Fun Args h
    have ht := tryToGet_unrecognised found Fun Args h
    refine ⟨ht, ?_⟩
    intro g hg
    simp [visitor, hg, ht]
  · intro found Args
    cases found <;> exact ⟨rfl, rfl, rfl, rfl, rfl, rfl, rfl⟩

/-- C13 at the call `re.Compile("a")` with the guard set. -/
theorem C13_witness :
    tryToGetRegexUsageFromCallExpr true
        (.SelectorExpr (.Ident (golit "re")) (golit "Compile")) [stringLit "\"a\""] =
      .ok (⟨[], []⟩, false) :=
  (C13_unrecognised_shapes_yield_no_record.1 true
    (.SelectorExpr (.Ident (golit "re")) (golit "Compile")) [stringLit "\"a\""]
    (Or.inr ⟨_, _, rfl, Or.inl (fun h => absurd (Node.Ident.inj h) (by decide))⟩)).1

/-- C14: `importsRegexp` holds of an import spec exactly when its path literal
has kind `STRING` and raw value the eight bytes `"regexp"`, double quotes
included; the back-quoted path, `"regexp/syntax"`, `"Regexp"` and `"my/regexp"`
do not satisfy it, and the visitor leaves the guard as it is on them. -/
theorem C14_import_detection_exact :
    (∀ spec : ImportSpec, importsRegexp spec = true ↔
      spec.Path.Kind = Token.STRING ∧ spec.Path.Value = golit "\"regexp\"") ∧
    (golit "\"regexp\"").length = 8 ∧
    golit "\"regexp\"" = [0x22, 0x72, 0x65, 0x67, 0x65, 0x78, 0x70, 0x22] ∧
    (∀ name, importsRegexp ⟨name, ⟨.STRING, golit "`regexp`"⟩⟩ = false ∧
      importsRegexp ⟨name, ⟨.STRING, golit "\"regexp/syntax\""⟩⟩ = false ∧
      importsRegexp ⟨name, ⟨.STRING, golit "\"Regexp\""⟩⟩ = false ∧
      importsRegexp ⟨name, ⟨.STRING, golit "\"my/regexp\""⟩⟩ = false) ∧
    (∀ (spec : ImportSpec) (g : Globals), importsRegexp spec = false →
      visitor (some (.ImportSpec spec)) g = .ok (true, g)) ∧
    (∀ (spec : ImportSpec) (g : Globals), importsRegexp spec = true →
      visitor (some (.ImportSpec spec)) g =
        .ok (true, { g with FOUND_REGEXP_IMPORT := true })) := by
  refine ⟨?_, by decide, by decide, ?_, ?_, ?_⟩
  · intro spec
    simp [importsRegexp]
  · intro name
    exact ⟨rfl, rfl, rfl, rfl⟩
  · intro spec g h
    simp [visitor, h]
  · intro spec g h
    simp [visitor, h]

/-- C15: a file whose only import is `import re "regexp"` and whose body calls
`regexp.Compile("a")` is reported with the record `{a, UNKNOWN}`, and so it is
under the blank and the dot import; the same file calling `re.Compile("a")`
instead is reported with no record. -/
theorem C15_guard_ignores_local_name :
    main (fun _ => some (fileOf [regexpImportAs "re"] [regexpCall "Compile" [stringLit "\"a\""]]))
        [golit "extract-regexps", golit "a.go"] Globals.initial =
      .emitted ⟨golit "go", golit "a.go", true, some [⟨golit "a", golit "UNKNOWN"⟩]⟩ ∧
    main (fun _ => some (fileOf [regexpImportAs "_"] [regexpCall "Compile" [stringLit "\"a\""]]))
        [golit "extract-regexps", golit "a.go"] Globals.initial =
      .emitted ⟨golit "go", golit "a.go", true, some [⟨golit "a", golit "UNKNOWN"⟩]⟩ ∧
    main (fun _ => some (fileOf [regexpImportAs "."] [regexpCall "Compile" [stringLit "\"a\""]]))
        [golit "extract-regexps", golit "a.go"] Globals.initial =
      .emitted ⟨golit "go", golit "a.go", true, some [⟨golit "a", golit "UNKNOWN"⟩]⟩ ∧
    main (fun _ => some (fileOf [regexpImportAs "re"] [aliasCall]))
        [golit "extract-regexps", golit "a.go"] Globals.initial =
      .emitted ⟨golit "go", golit "a.go", true, some []⟩ ∧
    main (fun _ => some (fileOf [regexpImportAs "re"]
          [aliasCall, regexpCall "Compile" [stringLit "\"a\""]]))
        [golit "extract-regexps", golit "a.go"] Globals.initial =
      .emitted ⟨golit "go", golit "a.go", true, some [⟨golit "a", golit "UNKNOWN"⟩]⟩ :=
  ⟨rfl, rfl, rfl, rfl, rfl⟩

/-- C16: for an argument list whose first element is a string literal with raw
text `v`: when `v` has at least two bytes, `getFirstArgIfString` returns
`ok = true` with the pattern `v[1 : len(v)-1]`, of length `len(v) - 2`; when `v`
has fewer than two bytes it panics with a slice bounds error. -/
theorem C16_quote_stripping_bounds (v : GoString) (more : List Node) :
    (2 ≤ v.length →
      ∃ pattern, getFirstArgIfString (.BasicLit ⟨.STRING, v⟩ :: more) = .ok (pattern, true) ∧
        pattern = (v.drop 1).take (v.length - 2) ∧
        pattern.length = v.length - 2 ∧
        ∀ i, i < v.length - 2 → pattern[i]? = v[i + 1]?) ∧
    (v.length < 2 →
      getFirstArgIfString (.BasicLit ⟨.STRING, v⟩ :: more) =
        .error Panic.sliceBoundsOutOfRange) := by
  constructor
  · intro h
    refine ⟨_, getFirstArgIfString_string v more h, rfl, ?_, ?_⟩
    · simp
      omega
    · intro i hi
      rw [List.getElem?_take_of_lt hi, List.getElem?_drop, Nat.add_comm]
  · intro h
    simp [getFirstArgIfString, sliceString_short v h]

/-- C16 at the raw text `"ab"` (four bytes) and at the one-byte raw text `"`. -/
theorem C16_witness :
    (∃ pattern, getFirstArgIfString [stringLit "\"ab\""] = .ok (pattern, true) ∧
        pattern = ((golit "\"ab\"").drop 1).take ((golit "\"ab\"").length - 2) ∧
        pattern.length = (golit "\"ab\"").length - 2 ∧
        ∀ i, i < (golit "\"ab\"").length - 2 → pattern[i]? = (golit "\"ab\"")[i + 1]?) ∧
    getFirstArgIfString [stringLit "\""] = .error Panic.sliceBoundsOutOfRange :=
  ⟨(C16_quote_stripping_bounds (golit "\"ab\"") []).1 (by decide),
   (C16_quote_stripping_bounds (golit "\"") []).2 (by decide)⟩

/-- C17: with the guard set, the classifier returns the same record
`{DYNAMIC, UNKNOWN}` with `ok = true` for `regexp.Compile("DYNAMIC")`, whose
first argument is a string literal, and for `regexp.Compile(x)`, whose first
argument is an identifier. -/
theorem C17_dynamic_marker_is_ambiguous :
    tryToGetRegexUsageFromCallExpr true
        (.SelectorExpr (.Ident (golit "regexp")) (golit "Compile"))
        [stringLit "\"DYNAMIC\""] = .ok (⟨golit "DYNAMIC", golit "UNKNOWN"⟩, true) ∧
    tryToGetRegexUsageFromCallExpr true
        (.SelectorExpr (.Ident (golit "regexp")) (golit "Compile"))
        [.Ident (golit "x")] = .ok (⟨golit "DYNAMIC", golit "UNKNOWN"⟩, true) ∧
    getFirstArgIfString [stringLit "\"DYNAMIC\""] = .ok (golit "DYNAMIC", true) ∧
    getFirstArgIfString [.Ident (golit "x")] = .ok ([], false) :=
  ⟨rfl, rfl, rfl, rfl⟩

end ExtractRegexps

namespace QueryGo

open ExtractRegexps (GoString golit goAppend)

theorem matchInput_total {Regexp : Type} (E : Engine Regexp) (re : Regexp) (input : GoString)
    (hE : E.FindSubmatch re input ≠ some []) :
    ∃ mr : MatchResult, matchInput E re input = .ok mr ∧ mr.Input = input ∧
      (E.FindSubmatch re input = none → mr = ⟨input, false, ⟨[], some []⟩⟩) := by
  unfold matchInput
  cases h : E.FindSubmatch re input with
  | none => exact ⟨_, rfl, rfl, fun _ => rfl⟩
  | some flatMatches =>
    cases flatMatches with
    | nil => exact absurd h hE
    | cons whole groups => exact ⟨_, rfl, rfl, fun hn => by simp at hn⟩

theorem rangeInputs_ok {Regexp : Type} (E : Engine Regexp) (re : Regexp)
    (hE : ∀ input, E.FindSubmatch re input ≠ some []) (inputs : List GoString)
    (acc : List MatchResult) :
    ∃ results : List MatchResult, rangeInputs E re inputs (some acc) = .ok (some (acc ++ results)) ∧
      results.length = inputs.length ∧
      ∀ (i : Nat) (input : GoString), inputs[i]? = some input →
        ∃ mr : MatchResult, results[i]? = some mr ∧ mr.Input = input ∧
          (E.FindSubmatch re input = none → mr = ⟨input, false, ⟨[], some []⟩⟩) := by
  induction inputs generalizing acc with
  | nil => exact ⟨[], by simp [rangeInputs], rfl, fun i input h => by simp at h⟩
  | cons input rest ih =>
    obtain ⟨mr0, hm, hin, hno⟩ := matchInput_total E re input (hE input)
    obtain ⟨results, hr, hlen, hidx⟩ := ih (acc ++ [mr0])
    refine ⟨mr0 :: results, ?_, by simp [hlen], ?_⟩
    · simp [rangeInputs, hm, goAppend, hr]
    · intro i inp hi
      cases i with
      | zero =>
        simp at hi
        subst hi
        exact ⟨mr0, by simp, hin, hno⟩
      | succ j =>
        simp at hi
        simpa using hidx j inp hi

/-- C18: let the query file be readable, holding `query`, and let the engine
never answer a non-nil empty slice of submatches (package `regexp` puts the
whole match at index 0). If the pattern compiles, the tool emits
`validPattern = true`, `pattern` and `inputs` as in the query, and `results`
with one entry per input, the entry at position `i` carrying `inputs[i]` and,
when that input has no match, `matched = false`, `matchedString = ""` and
`captureGroups` empty and non-nil. If the pattern does not compile, the tool
emits `validPattern = false`, `pattern` and `inputs` as in the query, and
`results` empty and non-nil. -/
theorem C18_query_tool_results {Regexp : Type} (E : Engine Regexp)
    (readQuery : GoString → Option Query) (prog file : GoString) (rest : List GoString)
    (query : Query)
    (hread : readQuery file = some query)
    (hE : ∀ re input, E.FindSubmatch re input ≠ some []) :
    (∀ re, E.Compile query.Pattern = some re →
      ∃ results : List MatchResult, main E readQuery (prog :: file :: rest) =
          .emitted ⟨query.Pattern, query.Inputs, true, some results⟩ ∧
        results.length = (query.Inputs.getD []).length ∧
        ∀ (i : Nat) (input : GoString), (query.Inputs.getD [])[i]? = some input →
          ∃ mr : MatchResult, results[i]? = some mr ∧ mr.Input = input ∧
            (E.FindSubmatch re input = none → mr = ⟨input, false, ⟨[], some []⟩⟩)) ∧
    (E.Compile query.Pattern = none →
      main E readQuery (prog :: file :: rest) =
        .emitted ⟨query.Pattern, query.Inputs, false, some []⟩) := by
  constructor
  · intro re hc
    obtain ⟨results, hr, hlen, hidx⟩ := rangeInputs_ok E re (hE re) (query.Inputs.getD []) []
    refine ⟨results, ?_, hlen, hidx⟩
    simp only [List.nil_append] at hr
    simp [main, hread, hc, hr]
  · intro hc
    simp [main, hread, hc]

/-- C18 at the sample engine and the query `{pattern: "a", inputs: ["ab", "b"]}`:
two results, in input order, the second without a match. -/
theorem C18_witness :
    main sampleEngine (fun _ => some ⟨golit "a", some [golit "ab", golit "b"]⟩)
        [golit "query-go", golit "q.json"] =
      .emitted ⟨golit "a", some [golit "ab", golit "b"], true,
        some [⟨golit "ab", true, ⟨golit "a", some [[]]⟩⟩,
              ⟨golit "b", false, ⟨[], some []⟩⟩]⟩ ∧
    main sampleEngine (fun _ => some ⟨golit "(", some [golit "ab", golit "b"]⟩)
        [golit "query-go", golit "q.json"] =
      .emitted ⟨golit "(", some [golit "ab", golit "b"], false, some []⟩ :=
  ⟨by decide,
   (C18_query_tool_results sampleEngine
      (fun _ => some ⟨golit "(", some [golit "ab", golit "b"]⟩)
      (golit "query-go") (golit "q.json") [] ⟨golit "(", some [golit "ab", golit "b"]⟩ rfl
      (by
        intro re input
        cases input with
        | nil => simp [sampleEngine]
        | cons b bs =>
          simp only [sampleEngine]
          split <;> simp)).2 (by decide)⟩

end QueryGo
